import Mathlib

/-!
Verification development for the `leeriya` collaborative music-generation
server (Python sources under `server/app/`).  The Python code is shallowly
embedded: pure fragments become Lean functions, stateful methods become
explicit state-passing functions, Python `float` arithmetic is idealised as
exact rational arithmetic over `ℚ`, machine integers as `ℤ`/`ℕ`, and the
out-of-scope library primitives (HMAC-SHA256, `math.sin`, `math.pi`) are
parameters of the definitions that use them.
-/

namespace Leeriya

instance {ε α : Type _} [DecidableEq ε] [DecidableEq α] :
    DecidableEq (Except ε α) := fun a b =>
  match a, b with
  | .error x, .error y =>
      match decEq x y with
      | isTrue h => isTrue (h ▸ rfl)
      | isFalse h => isFalse (fun hc => h (Except.error.inj hc))
  | .ok x, .ok y =>
      match decEq x y with
      | isTrue h => isTrue (h ▸ rfl)
      | isFalse h => isFalse (fun hc => h (Except.ok.inj hc))
  | .error _, .ok _ => isFalse (fun hc => Except.noConfusion hc)
  | .ok _, .error _ => isFalse (fun hc => Except.noConfusion hc)

/-! ## Python values appearing in config dictionaries (`models.py`, `room_manager.py`)

A `PyVal` models the JSON-shaped Python values a client may place in a
music-config patch and the values produced by `MusicConfig.model_dump()`:
numbers (`int`/`float`, idealised as one exact rational), strings, booleans
and `None`.  `pyEqB` models Python `==` on these values: numeric types
compare by value, `bool` compares equal to the numbers 0/1 (the Python `bool`
is an `int` subtype), and a `str`-valued enum member compares equal to its
string value (so dumped enum members are modelled by their string value). -/

inductive PyVal where
  | num (q : ℚ)
  | pstr (s : String)
  | pbool (b : Bool)
  | pnone
  deriving DecidableEq, Repr

def pyEqB : PyVal → PyVal → Bool
  | .num a, .num b => a == b
  | .num a, .pbool b => a == (if b then (1 : ℚ) else 0)
  | .pbool a, .num b => (if a then (1 : ℚ) else 0) == b
  | .pbool a, .pbool b => a == b
  | .pstr a, .pstr b => a == b
  | .pnone, .pnone => true
  | _, _ => false

/-- Python `d.get(k)` on a Python dict modelled as an insertion-ordered
association list, with default `None` (absent keys compare like `None`). -/
def pyGetD (d : List (String × PyVal)) (k : String) : PyVal :=
  match d.find? (fun e => e.1 == k) with
  | some e => e.2
  | none => .pnone

/-- Merge `{**d, **patch}`: later occurrences override, existing keys keep their
position, new keys are appended in patch order (Python dict merge). -/
def pyUpdateOne (d : List (String × PyVal)) (k : String) (v : PyVal) :
    List (String × PyVal) :=
  if d.any (fun e => e.1 == k) then
    d.map (fun e => if e.1 == k then (k, v) else e)
  else
    d ++ [(k, v)]

def pyMerge (d patch : List (String × PyVal)) : List (String × PyVal) :=
  patch.foldl (fun acc e => pyUpdateOne acc e.1 e.2) d

/-! ## `models.py`: enumerations and `MusicConfig` -/

inductive ScaleEnum where
  | C_MAJOR_A_MINOR | D_FLAT_MAJOR_B_FLAT_MINOR | D_MAJOR_B_MINOR
  | E_FLAT_MAJOR_C_MINOR | E_MAJOR_D_FLAT_MINOR | F_MAJOR_D_MINOR
  | G_FLAT_MAJOR_E_FLAT_MINOR | G_MAJOR_E_MINOR | A_FLAT_MAJOR_F_MINOR
  | A_MAJOR_G_FLAT_MINOR | B_FLAT_MAJOR_G_MINOR | B_MAJOR_A_FLAT_MINOR
  | SCALE_UNSPECIFIED
  deriving DecidableEq, Repr

def ScaleEnum.value : ScaleEnum → String
  | .C_MAJOR_A_MINOR => "C_MAJOR_A_MINOR"
  | .D_FLAT_MAJOR_B_FLAT_MINOR => "D_FLAT_MAJOR_B_FLAT_MINOR"
  | .D_MAJOR_B_MINOR => "D_MAJOR_B_MINOR"
  | .E_FLAT_MAJOR_C_MINOR => "E_FLAT_MAJOR_C_MINOR"
  | .E_MAJOR_D_FLAT_MINOR => "E_MAJOR_D_FLAT_MINOR"
  | .F_MAJOR_D_MINOR => "F_MAJOR_D_MINOR"
  | .G_FLAT_MAJOR_E_FLAT_MINOR => "G_FLAT_MAJOR_E_FLAT_MINOR"
  | .G_MAJOR_E_MINOR => "G_MAJOR_E_MINOR"
  | .A_FLAT_MAJOR_F_MINOR => "A_FLAT_MAJOR_F_MINOR"
  | .A_MAJOR_G_FLAT_MINOR => "A_MAJOR_G_FLAT_MINOR"
  | .B_FLAT_MAJOR_G_MINOR => "B_FLAT_MAJOR_G_MINOR"
  | .B_MAJOR_A_FLAT_MINOR => "B_MAJOR_A_FLAT_MINOR"
  | .SCALE_UNSPECIFIED => "SCALE_UNSPECIFIED"

def ScaleEnum.ofString (s : String) : Option ScaleEnum :=
  [ScaleEnum.C_MAJOR_A_MINOR, .D_FLAT_MAJOR_B_FLAT_MINOR, .D_MAJOR_B_MINOR,
   .E_FLAT_MAJOR_C_MINOR, .E_MAJOR_D_FLAT_MINOR, .F_MAJOR_D_MINOR,
   .G_FLAT_MAJOR_E_FLAT_MINOR, .G_MAJOR_E_MINOR, .A_FLAT_MAJOR_F_MINOR,
   .A_MAJOR_G_FLAT_MINOR, .B_FLAT_MAJOR_G_MINOR, .B_MAJOR_A_FLAT_MINOR,
   .SCALE_UNSPECIFIED].find? (fun e => e.value == s)

inductive MusicGenerationMode where
  | QUALITY | DIVERSITY | VOCALIZATION
  deriving DecidableEq, Repr

def MusicGenerationMode.value : MusicGenerationMode → String
  | .QUALITY => "QUALITY"
  | .DIVERSITY => "DIVERSITY"
  | .VOCALIZATION => "VOCALIZATION"

def MusicGenerationMode.ofString (s : String) : Option MusicGenerationMode :=
  [MusicGenerationMode.QUALITY, .DIVERSITY, .VOCALIZATION].find?
    (fun e => e.value == s)

/-- Structure `MusicConfig` from `models.py` (floats idealised as `ℚ`). -/
structure MusicConfig where
  guidance : ℚ
  bpm : ℤ
  density : ℚ
  brightness : ℚ
  scale : ScaleEnum
  mute_bass : Bool
  mute_drums : Bool
  only_bass_and_drums : Bool
  music_generation_mode : MusicGenerationMode
  temperature : ℚ
  top_k : ℤ
  seed : Option ℤ
  deriving DecidableEq, Repr

/-- The rational `0.5` given by an explicit normalised representation (so
that kernel reduction of concrete computations never has to normalise). -/
def ratHalf : ℚ := ⟨1, 2, by decide, by norm_num⟩

/-- The rational `1.1`, likewise in explicit normalised representation. -/
def ratElevenTenths : ℚ := ⟨11, 10, by decide, by norm_num⟩

/-- All-defaults `MusicConfig()` (the pydantic field defaults). -/
def MusicConfig.default : MusicConfig where
  guidance := 4
  bpm := 130
  density := ratHalf
  brightness := ratHalf
  scale := .SCALE_UNSPECIFIED
  mute_bass := false
  mute_drums := false
  only_bass_and_drums := false
  music_generation_mode := .QUALITY
  temperature := ratElevenTenths
  top_k := 40
  seed := none

/-- Method `MusicConfig.model_dump()`: fields in declaration order; `str`-valued
enum members modelled by their string value, `None` by `pnone`. -/
def MusicConfig.dump (c : MusicConfig) : List (String × PyVal) :=
  [ ("guidance", .num c.guidance)
  , ("bpm", .num (c.bpm : ℚ))
  , ("density", .num c.density)
  , ("brightness", .num c.brightness)
  , ("scale", .pstr c.scale.value)
  , ("mute_bass", .pbool c.mute_bass)
  , ("mute_drums", .pbool c.mute_drums)
  , ("only_bass_and_drums", .pbool c.only_bass_and_drums)
  , ("music_generation_mode", .pstr c.music_generation_mode.value)
  , ("temperature", .num c.temperature)
  , ("top_k", .num (c.top_k : ℚ))
  , ("seed", match c.seed with | some n => .num (n : ℚ) | none => .pnone) ]

/-! Pydantic field validation (`MusicConfig.model_validate`).  Each coercion
models pydantic v2 lax validation restricted to the JSON-shaped `PyVal`
domain: numbers for `float` fields, integral numbers for `int` fields,
booleans for `bool` fields, enum value strings for enum fields (string→number
and int→bool coercions of the underlying library are outside the modelled
value domain and never arise from clients of this repository).  Range
constraints are the `Field(ge=…, le=…)` bounds from `models.py`.  Validation
of the whole dict fails iff any field fails (wholesale rejection). -/

def coerceFloat (lo hi : ℚ) : PyVal → Except Unit ℚ
  | .num q => if lo ≤ q ∧ q ≤ hi then .ok q else .error ()
  | _ => .error ()

def coerceInt (lo hi : ℤ) : PyVal → Except Unit ℤ
  | .num q => if q.den = 1 ∧ lo ≤ q.num ∧ q.num ≤ hi then .ok q.num else .error ()
  | _ => .error ()

def coerceBool : PyVal → Except Unit Bool
  | .pbool b => .ok b
  | _ => .error ()

def coerceScale : PyVal → Except Unit ScaleEnum
  | .pstr s => match ScaleEnum.ofString s with
      | some e => .ok e
      | none => .error ()
  | _ => .error ()

def coerceMode : PyVal → Except Unit MusicGenerationMode
  | .pstr s => match MusicGenerationMode.ofString s with
      | some e => .ok e
      | none => .error ()
  | _ => .error ()

def coerceSeed : PyVal → Except Unit (Option ℤ)
  | .pnone => .ok none
  | .num q => if q.den = 1 ∧ 0 ≤ q.num ∧ q.num ≤ 2147483647 then .ok (some q.num)
      else .error ()
  | _ => .error ()

/-- Validate one field: absent keys take the field default (pydantic),
present keys are coerced and range-checked. -/
def vField {α : Type} (d : List (String × PyVal)) (k : String)
    (coe : PyVal → Except Unit α) (dflt : α) : Except Unit α :=
  match d.find? (fun e => e.1 == k) with
  | none => .ok dflt
  | some e => coe e.2

/-- Method `MusicConfig.model_validate(dict)`: extra keys are ignored (default
pydantic behaviour); every declared field is validated. -/
def MusicConfig.validate (d : List (String × PyVal)) : Except Unit MusicConfig := do
  let guidance ← vField d "guidance" (coerceFloat 0 6) 4
  let bpm ← vField d "bpm" (coerceInt 60 200) 130
  let density ← vField d "density" (coerceFloat 0 1) ratHalf
  let brightness ← vField d "brightness" (coerceFloat 0 1) ratHalf
  let scale ← vField d "scale" coerceScale .SCALE_UNSPECIFIED
  let mute_bass ← vField d "mute_bass" coerceBool false
  let mute_drums ← vField d "mute_drums" coerceBool false
  let only_bass_and_drums ← vField d "only_bass_and_drums" coerceBool false
  let music_generation_mode ← vField d "music_generation_mode" coerceMode .QUALITY
  let temperature ← vField d "temperature" (coerceFloat 0 3) ratElevenTenths
  let top_k ← vField d "top_k" (coerceInt 1 1000) 40
  let seed ← vField d "seed" coerceSeed none
  pure { guidance, bpm, density, brightness, scale, mute_bass, mute_drums,
         only_bass_and_drums, music_generation_mode, temperature, top_k, seed }

/-! ## `models.py` / `room_manager.py`: room state and mutations -/

inductive Role where
  | A | B
  deriving DecidableEq, Repr

inductive PlaybackState where
  | paused | playing | stopped
  deriving DecidableEq, Repr

structure WeightedPrompt where
  id : String
  text : String
  weight : ℚ
  created_by : Role
  deriving DecidableEq, Repr

/-- The declared pydantic constraint on `WeightedPrompt.weight`
(`Field(ge=-10.0, le=10.0)` in `models.py`). -/
def WeightedPrompt.weightInRange (p : WeightedPrompt) : Prop :=
  -10 ≤ p.weight ∧ p.weight ≤ 10

instance (p : WeightedPrompt) : Decidable p.weightInRange := by
  unfold WeightedPrompt.weightInRange; infer_instance

/-- Constructing `WeightedPrompt(...)` construction runs the pydantic validators:
`text` length in 1..300, `weight` in [-10, 10]. -/
def WeightedPrompt.mk? (id text : String) (weight : ℚ) (created_by : Role) :
    Except Unit WeightedPrompt :=
  if 1 ≤ text.length ∧ text.length ≤ 300 ∧ -10 ≤ weight ∧ weight ≤ 10 then
    .ok { id, text, weight, created_by }
  else
    .error ()

structure ParticipantState where
  connected : Bool
  active_control : Option String
  deriving DecidableEq, Repr

/-- The `RoomState` fields relevant to the room mutations (timestamps are
abstract integer instants). -/
structure RoomState where
  prompts : List WeightedPrompt
  music_config : MusicConfig
  participantA : ParticipantState
  participantB : ParticipantState
  playback_state : PlaybackState
  updated_at : ℤ
  deriving DecidableEq, Repr

def RoomState.initial : RoomState where
  prompts := []
  music_config := MusicConfig.default
  participantA := { connected := false, active_control := none }
  participantB := { connected := false, active_control := none }
  playback_state := .paused
  updated_at := 0

/-- Method `Room.apply_music_config_patch` (`room_manager.py`).  The function
returns the room state as it is when the call finishes — also when it
raises — paired with `some (snapshot, requires_reset)` on normal return and
`none` when `MusicConfig.model_validate` raises.  The transcription mirrors
the statement order of the source: `existing`/`changed_keys`/`merged` are
computed first, the validated config is assigned to the state, then
`_touch_locked()` advances `updated_at`, a snapshot is taken, and
`requires_reset = bool(changed_keys & {"bpm", "scale"})`. -/
def applyMusicConfigPatch (now : ℤ) (st : RoomState)
    (patch : List (String × PyVal)) : RoomState × Option (RoomState × Bool) :=
  match MusicConfig.validate (pyMerge st.music_config.dump patch) with
  | .error _ => (st, none)
  | .ok cfg =>
      let st2 := { st with music_config := cfg, updated_at := now }
      (st2, some (st2,
        (patch.filter
            (fun e => ¬ pyEqB (pyGetD st.music_config.dump e.1) e.2)).any
          (fun e => e.1 == "bpm" || e.1 == "scale")))

/-- Method `Room.update_prompt_weight` (`room_manager.py`): finds the prompt by id
and assigns `prompt.weight = weight` directly (a plain attribute assignment
on a pydantic model without `validate_assignment`, hence no validation);
raises `ValueError` when the id is absent. -/
def updatePromptWeight (now : ℤ) (st : RoomState) (prompt_id : String)
    (weight : ℚ) : Except Unit RoomState :=
  if st.prompts.any (fun p => p.id == prompt_id) then
    .ok { st with
          prompts := st.prompts.map
            (fun p => if p.id == prompt_id then { p with weight := weight } else p),
          updated_at := now }
  else
    .error ()

/-- Method `Room.add_prompt` (`room_manager.py`): constructs a `WeightedPrompt`
(running its validators) and appends it. -/
def addPrompt (now : ℤ) (st : RoomState) (id text : String) (weight : ℚ)
    (role : Role) : Except Unit RoomState := do
  let p ← WeightedPrompt.mk? id text weight role
  pure { st with prompts := st.prompts ++ [p], updated_at := now }

/-- The patch assigns to key `k ∈ {bpm, scale}` a value that differs (under
Python `==`) from the pre-patch config value at that key. -/
def patchChangesBpmOrScale (cfg : MusicConfig)
    (patch : List (String × PyVal)) : Prop :=
  ∃ e ∈ patch, (e.1 = "bpm" ∨ e.1 = "scale") ∧ pyEqB (pyGetD cfg.dump e.1) e.2 = false

/-- A room with one valid prompt `p1` of weight 1, for concrete evaluation. -/
def promptRoom : RoomState :=
  { RoomState.initial with
    prompts := [{ id := "p1", text := "t", weight := 1, created_by := .A }] }

def promptRoomAfter : RoomState :=
  { promptRoom with
    prompts := [{ id := "p1", text := "t", weight := 100, created_by := .A }],
    updated_at := 1 }

/-- C1: `apply_music_config_patch` either replaces the config with the
successfully validated merge of the current config with the patch (touching
`updated_at`, leaving every other `RoomState` field unchanged), or the
validation raises and the whole `RoomState` — prompts, participants,
playback state and `updated_at` included — is exactly as before the call;
no partial application occurs. -/
theorem apply_music_config_patch_atomic (now : ℤ) (st : RoomState)
    (patch : List (String × PyVal)) :
    (MusicConfig.validate (pyMerge st.music_config.dump patch) = .error () ∧
      applyMusicConfigPatch now st patch = (st, none))
    ∨ (∃ cfg b, MusicConfig.validate (pyMerge st.music_config.dump patch) = .ok cfg ∧
        applyMusicConfigPatch now st patch =
          ({ st with music_config := cfg, updated_at := now },
           some ({ st with music_config := cfg, updated_at := now }, b))) := by
  cases h : MusicConfig.validate (pyMerge st.music_config.dump patch) with
  | error u => cases u; exact Or.inl ⟨rfl, by simp [applyMusicConfigPatch, h]⟩
  | ok cfg =>
      exact Or.inr ⟨cfg,
        (patch.filter
            (fun e => ¬ pyEqB (pyGetD st.music_config.dump e.1) e.2)).any
          (fun e => e.1 == "bpm" || e.1 == "scale"),
        rfl, by simp [applyMusicConfigPatch, h]⟩

/-- C3: on normal return, `requires_reset` is `true` iff the patch assigns
to `bpm` or to `scale` a value different (under Python `==`) from that
pre-patch value at that key. -/
theorem requires_reset_iff (now : ℤ) (st : RoomState)
    (patch : List (String × PyVal)) (st2 snap : RoomState) (b : Bool)
    (h : applyMusicConfigPatch now st patch = (st2, some (snap, b))) :
    b = true ↔ patchChangesBpmOrScale st.music_config patch := by
  cases hv : MusicConfig.validate (pyMerge st.music_config.dump patch) with
  | error u => simp [applyMusicConfigPatch, hv] at h
  | ok cfg =>
      simp only [applyMusicConfigPatch, hv, Prod.mk.injEq, Option.some.injEq] at h
      obtain ⟨-, -, hb⟩ := h
      subst hb
      unfold patchChangesBpmOrScale
      simp only [List.any_eq_true, List.mem_filter, decide_eq_true_eq,
        Bool.or_eq_true, beq_iff_eq]
      constructor
      · rintro ⟨e, ⟨he, hne⟩, hk⟩
        exact ⟨e, he, hk, by simpa using hne⟩
      · rintro ⟨e, he, hk, hne⟩
        exact ⟨e, ⟨he, by simpa using hne⟩, hk⟩

/-- Witness for C3 at a concrete input: patching `bpm` from 130 to 140
returns `requires_reset = true`, and the patch indeed changes `bpm`. -/
theorem requires_reset_iff_witness :
    patchChangesBpmOrScale RoomState.initial.music_config
      [("bpm", PyVal.num 140)] :=
  (requires_reset_iff 1 RoomState.initial [("bpm", PyVal.num 140)]
      { RoomState.initial with
        music_config := { MusicConfig.default with bpm := 140 }, updated_at := 1 }
      { RoomState.initial with
        music_config := { MusicConfig.default with bpm := 140 }, updated_at := 1 }
      true (by decide)).mp rfl

/-- C4 (code bug): `update_prompt_weight` stores any client-supplied weight
verbatim — assigning `prompt.weight` bypasses the pydantic validator — so a
weight of 100 lands in the room state even though the model declares
`weight ∈ [-10, 10]`; by contrast `add_prompt` (which constructs the model)
rejects the same weight. -/
theorem update_prompt_weight_skips_validation :
    updatePromptWeight 1 promptRoom "p1" 100 = .ok promptRoomAfter
    ∧ promptRoomAfter.prompts.all (fun p => decide p.weightInRange) = false
    ∧ addPrompt 1 promptRoom "p2" "t" 100 .A = .error () :=
  ⟨rfl, by decide, rfl⟩

/-! ## `Room.reserve_role` (`room_manager.py`)

State touched by `reserve_role`: the roles of the currently registered
control sockets (`self.active_roles`) and the reservation map
`self._reservations : Role → expiry` (modelled as an association list;
`time.time()` instants and the TTL are rationals).  The method first drops
every reservation with `exp ≤ now` (the code keeps `exp > now`), builds the
unavailable set, walks the candidate order and either records a reservation
`now + ttl` for the first free role or raises `RoomCapacityError`. -/

def candidateOrder (preferred : Option Role) : List Role :=
  match preferred with
  | none => [.A, .B]
  | some p => p :: [Role.A, Role.B].filter (fun x => x ≠ p)

/-- Sweep `{r: exp for r, exp in reservations.items() if exp > now}`. -/
def sweepRes (res : List (Role × ℚ)) (now : ℚ) : List (Role × ℚ) :=
  res.filter (fun e => now < e.2)

/-- Test `role in unavailable` where
`unavailable = set(active_roles) | set(reservations)`. -/
def unavailableB (active : List Role) (swept : List (Role × ℚ)) (r : Role) :
    Bool :=
  decide (r ∈ active) || decide (r ∈ swept.map Prod.fst)

/-- The loop `for role in order: if role not in unavailable: …` with the
dict insert and early return; returns the final reservation list and
`some role`, or the reservation list and `none` for the raise. -/
def reserveLoop (unavailable : Role → Bool) (res : List (Role × ℚ))
    (now ttl : ℚ) : List Role → List (Role × ℚ) × Option Role
  | [] => (res, none)
  | r :: rest =>
      if unavailable r then reserveLoop unavailable res now ttl rest
      else (res ++ [(r, now + ttl)], some r)

def reserveRole (active : List Role) (res : List (Role × ℚ)) (now ttl : ℚ)
    (preferred : Option Role) : List (Role × ℚ) × Option Role :=
  reserveLoop (unavailableB active (sweepRes res now)) (sweepRes res now)
    now ttl (candidateOrder preferred)

/-- A role is unavailable after the sweep: it is held by a registered
control socket or still reserved (reservation expiring after `now`). -/
def roleUnavailable (active : List Role) (res : List (Role × ℚ)) (now : ℚ)
    (r : Role) : Prop :=
  r ∈ active ∨ ∃ e ∈ res, e.1 = r ∧ now < e.2

/-- C8: `reserve_role` sweeps reservations with expiry ≤ now, then tries
candidates in order `[preferred, other]` (or `[A, B]`), returns the first
role neither held by a control socket nor reserved — appending a
reservation that expires at `now + ttl` — and raises `CapacityError`
exactly when both roles are unavailable. -/
theorem reserve_role_spec (active : List Role) (res : List (Role × ℚ))
    (now ttl : ℚ) (preferred : Option Role) :
    ((reserveRole active res now ttl preferred).2 = none ↔
      ∀ r, roleUnavailable active res now r)
    ∧ (∀ r, (reserveRole active res now ttl preferred).2 = some r →
        ¬ roleUnavailable active res now r
        ∧ (reserveRole active res now ttl preferred).1 =
            res.filter (fun e => now < e.2) ++ [(r, now + ttl)]
        ∧ ∃ pre post, candidateOrder preferred = pre ++ r :: post
            ∧ ∀ x ∈ pre, roleUnavailable active res now x) := by
  have hmem : ∀ r : Role, (unavailableB active (sweepRes res now) r = true ↔
      roleUnavailable active res now r) := by
    intro r
    simp only [unavailableB, sweepRes, roleUnavailable, Bool.or_eq_true,
      decide_eq_true_eq, List.mem_map, List.mem_filter, decide_eq_true_eq]
    constructor
    · rintro (h | ⟨e, ⟨he, h2⟩, h1⟩)
      · exact Or.inl h
      · exact Or.inr ⟨e, he, h1, h2⟩
    · rintro (h | ⟨e, he, h1, h2⟩)
      · exact Or.inl h
      · exact Or.inr ⟨e, ⟨he, h2⟩, h1⟩
  have hloop : ∀ (u : Role → Bool) (rs : List (Role × ℚ)) (r1 r2 : Role),
      reserveLoop u rs now ttl [r1, r2] =
        if u r1 then
          (if u r2 then (rs, none) else (rs ++ [(r2, now + ttl)], some r2))
        else (rs ++ [(r1, now + ttl)], some r1) := by
    intro u rs r1 r2
    cases h1 : u r1 <;> cases h2 : u r2 <;> simp [reserveLoop, h1, h2]
  have hall : ∀ r1 r2 : Role, candidateOrder preferred = [r1, r2] →
      (∀ r : Role, r = r1 ∨ r = r2) →
      ((reserveRole active res now ttl preferred).2 = none ↔
        ∀ r, roleUnavailable active res now r)
      ∧ (∀ r, (reserveRole active res now ttl preferred).2 = some r →
          ¬ roleUnavailable active res now r
          ∧ (reserveRole active res now ttl preferred).1 =
              res.filter (fun e => now < e.2) ++ [(r, now + ttl)]
          ∧ ∃ pre post, candidateOrder preferred = pre ++ r :: post
              ∧ ∀ x ∈ pre, roleUnavailable active res now x) := by
    intro r1 r2 hord hcover
    have hrr : reserveRole active res now ttl preferred =
        reserveLoop (unavailableB active (sweepRes res now)) (sweepRes res now)
          now ttl [r1, r2] := by
      rw [reserveRole, hord]
    rw [hrr, hloop]
    cases h1 : unavailableB active (sweepRes res now) r1 with
    | false =>
        rw [if_neg (by simp [h1])]
        constructor
        · constructor
          · intro h; cases h
          · intro hu
            exact absurd ((hmem r1).mpr (hu r1)) (by simp [h1])
        · intro r hr
          have hrr1 : r = r1 := by symm; simpa using hr
          subst hrr1
          refine ⟨fun hc => by simp [(hmem r).mpr hc] at h1, by simp [sweepRes], ?_⟩
          exact ⟨[], [r2], by rw [hord]; rfl, by simp⟩
    | true =>
        cases h2 : unavailableB active (sweepRes res now) r2 with
        | false =>
            rw [if_pos (by simp [h1]), if_neg (by simp [h2])]
            constructor
            · constructor
              · intro h; cases h
              · intro hu
                exact absurd ((hmem r2).mpr (hu r2)) (by simp [h2])
            · intro r hr
              have hrr2 : r = r2 := by symm; simpa using hr
              subst hrr2
              refine ⟨fun hc => by simp [(hmem r).mpr hc] at h2, by simp [sweepRes], ?_⟩
              refine ⟨[r1], [], by rw [hord]; rfl, ?_⟩
              intro x hx
              have hxr : x = r1 := by simpa using hx
              subst hxr
              exact (hmem x).mp h1
        | true =>
            rw [if_pos (by simp [h1]), if_pos (by simp [h2])]
            constructor
            · constructor
              · intro hn r
                rcases hcover r with h | h <;> subst h
                · exact (hmem r).mp h1
                · exact (hmem r).mp h2
              · intro hu; rfl
            · intro r hr; cases hr
  rcases preferred with - | p
  · exact hall .A .B rfl (fun r => by cases r <;> simp)
  · cases p
    · exact hall .A .B (by rfl) (fun r => by cases r <;> simp)
    · exact hall .B .A (by rfl) (fun r => by cases r <;> simp)

/-- Witness for C8 at a concrete input: in an empty room, `reserve_role`
hands out role `A`, which was indeed available. -/
theorem reserve_role_spec_witness : ¬ roleUnavailable [] [] 0 Role.A :=
  ((reserve_role_spec [] [] 0 30 none).2 Role.A rfl).1

/-! ## Generator sessions (`lyria.py`): lifecycle state machines

`MockLyriaSession` and `GoogleLyriaSession` are embedded as state machines
over the fields their `start`/`close` methods read and write.  A background
task is `some done` where `done` is the `task.done()` flag (`start` spawns
a fresh not-done task, `close` cancels, awaits and drops it);
`asyncio`-level interleavings are abstracted: `start` and `close` are the
state transformers the method bodies denote when run to completion. -/

structure MockSessionState where
  running : Bool
  playing : Bool
  task : Option Bool
  phase : ℚ
  deriving DecidableEq, Repr

/-- Method `MockLyriaSession.start`: returns immediately when a not-done task
exists, else sets `_running` and spawns the producer task. -/
def mockStart (s : MockSessionState) : MockSessionState :=
  match s.task with
  | some done => if ¬ done then s else { s with running := true, task := some false }
  | none => { s with running := true, task := some false }

/-- Method `MockLyriaSession.close`: clears the flags and, if a task exists,
cancels and awaits it and drops the handle.  Total — safe with or without a
prior `start` or `close`. -/
def mockClose (s : MockSessionState) : MockSessionState :=
  { s with running := false, playing := false, task := none }

structure GoogleSessionState where
  running : Bool
  using_mock : Bool
  mock : MockSessionState
  recv_task : Option Bool
  session_open : Bool
  deriving DecidableEq, Repr

/-- Method `GoogleLyriaSession.start`: no-op when already running; otherwise tries
`_start_real_session()` — `initOk` says whether that raises — and on
failure falls back to starting the embedded mock. -/
def googleStart (initOk : Bool) (s : GoogleSessionState) : GoogleSessionState :=
  if s.running then s
  else if initOk then
    { s with running := true, recv_task := some false, session_open := true }
  else
    { s with using_mock := true, mock := mockStart s.mock, running := true }

/-- Method `GoogleLyriaSession.close`: on the mock branch delegates to the mock and
clears `_running`; on the real branch clears `_running`, cancels/awaits the
receive task and tears the session context down.  Total. -/
def googleClose (s : GoogleSessionState) : GoogleSessionState :=
  if s.using_mock then { s with mock := mockClose s.mock, running := false }
  else { s with running := false, recv_task := none, session_open := false }

/-- C9: for both generator variants, a second `start` right after a first
one is a no-op (same resulting state), and `close` is total and idempotent:
it may be called without any prior `start` and repeating it changes
nothing.  For the remote variant the two `start` calls may even resolve the
external-service initialisation differently. -/
theorem generator_lifecycle_idempotent :
    (∀ s : MockSessionState, mockStart (mockStart s) = mockStart s)
    ∧ (∀ s : MockSessionState, mockClose (mockClose s) = mockClose s)
    ∧ (∀ s : MockSessionState,
        (mockClose s).running = false ∧ (mockClose s).task = none)
    ∧ (∀ (s : GoogleSessionState) (ok1 ok2 : Bool),
        googleStart ok2 (googleStart ok1 s) = googleStart ok1 s)
    ∧ (∀ s : GoogleSessionState, googleClose (googleClose s) = googleClose s)
    ∧ (∀ s : GoogleSessionState, (googleClose s).running = false) := by
  refine ⟨?_, ?_, ?_, ?_, ?_, ?_⟩
  · intro s
    rcases s with ⟨running, playing, task, phase⟩
    rcases task with - | done
    · simp [mockStart]
    · cases done <;> simp [mockStart]
  · intro s; simp [mockClose]
  · intro s; simp [mockClose]
  · intro s ok1 ok2
    have h : (googleStart ok1 s).running = true := by
      by_cases hr : s.running <;> cases ok1 <;> simp [googleStart, hr]
    rw [googleStart, if_pos h]
  · intro s
    by_cases hm : s.using_mock <;> simp [googleClose, hm, mockClose]
  · intro s
    by_cases hm : s.using_mock <;> simp [googleClose, hm]

/-! ## `MockLyriaSession._render_pcm16_stereo` (`lyria.py`)

Python binary64 arithmetic is idealised as exact `ℚ` arithmetic;
`math.sin` and `math.pi` are parameters (`sinA`, `piA`) since the claims
about frame structure hold for every value they may take. -/

/-- Python `int(x)` on a rational: truncation toward zero
(`num.tdiv den` on the reduced fraction). -/
def pyTruncQ (q : ℚ) : ℤ :=
  q.num.tdiv (q.den : ℤ)

/-- Mean `sum(ws) / max(len(ws), 1)`. -/
def promptBias (weights : List ℚ) : ℚ :=
  weights.sum / ((max weights.length 1 : ℕ) : ℚ)

/-- Value `base_freq`, including the generation-mode multiplier applied below the
amplitude block in the source. -/
def baseFreq (cfg : MusicConfig) (weights : List ℚ) : ℚ :=
  let bf := 90 + ((cfg.bpm : ℚ) * (55/100)) + (cfg.brightness * 180)
      + (promptBias weights * 8)
  if cfg.music_generation_mode.value = "DIVERSITY" then bf * (107/100)
  else if cfg.music_generation_mode.value = "VOCALIZATION" then bf * (118/100)
  else bf

def lfoFreq (cfg : MusicConfig) : ℚ := 35/100 + cfg.density * (8/10)

def guidanceMix (cfg : MusicConfig) : ℚ :=
  max (5/100) (min (cfg.guidance / 6) 1)

def amplitudeOf (cfg : MusicConfig) : ℚ :=
  let a := 12/100 + cfg.density * (26/100)
  let a := if cfg.mute_bass then a * (7/10) else a
  if cfg.only_bass_and_drums then a * (85/100) else a

def stepOf (piA : ℚ) (cfg : MusicConfig) (weights : List ℚ) : ℚ :=
  2 * piA * baseFreq cfg weights / 48000

def lfoStepOf (piA : ℚ) (cfg : MusicConfig) : ℚ :=
  2 * piA * lfoFreq cfg / 48000

/-- The per-index `sample` value after the amplitude and `mute_drums`
multipliers (the value called `sample` when `left`/`right` are formed). -/
def rawSample (sinA : ℚ → ℚ) (piA : ℚ) (cfg : MusicConfig)
    (weights : List ℚ) (phase : ℚ) (idx : ℕ) : ℚ :=
  let step := stepOf piA cfg weights
  let lfo := sinA ((phase * (8/100)) + (idx * lfoStepOf piA cfg))
  let carrier := sinA (phase + (idx * step))
  let overtone := sinA ((phase * (19/10)) + (idx * step * (192/100)))
  let s := (carrier * ((75/100) + ((25/100) * guidanceMix cfg)))
      + (overtone * (35/100) * ((1/2) + guidanceMix cfg))
  let s := s * (1 + (25/100) * lfo)
  let s := s * amplitudeOf cfg
  if cfg.mute_drums then s * (8/10) else s

def leftVal (sinA : ℚ → ℚ) (piA : ℚ) (cfg : MusicConfig) (weights : List ℚ)
    (phase : ℚ) (idx : ℕ) : ℚ :=
  max (-1) (min 1 (rawSample sinA piA cfg weights phase idx))

def rightVal (sinA : ℚ → ℚ) (piA : ℚ) (cfg : MusicConfig) (weights : List ℚ)
    (phase : ℚ) (idx : ℕ) : ℚ :=
  max (-1) (min 1 ((rawSample sinA piA cfg weights phase idx * (92/100))
    + ((8/100) * sinA (phase * (1/2)))))

/-- Conversion `left_i = int(left * 32767.0)`. -/
def leftI16 (sinA : ℚ → ℚ) (piA : ℚ) (cfg : MusicConfig) (weights : List ℚ)
    (phase : ℚ) (idx : ℕ) : ℤ :=
  pyTruncQ (leftVal sinA piA cfg weights phase idx * 32767)

/-- Conversion `right_i = int(right * 32767.0)`. -/
def rightI16 (sinA : ℚ → ℚ) (piA : ℚ) (cfg : MusicConfig) (weights : List ℚ)
    (phase : ℚ) (idx : ℕ) : ℤ :=
  pyTruncQ (rightVal sinA piA cfg weights phase idx * 32767)

/-- Encoding `v.to_bytes(2, byteorder="little", signed=True)`: twos-complement
little-endian byte pair. -/
def int16le (v : ℤ) : List ℕ :=
  [((v % 65536).toNat) % 256, ((v % 65536).toNat) / 256]

/-- Reading back an (L, R)-pair byte as a signed 16-bit little-endian
integer. -/
def decodeInt16le : List ℕ → ℤ
  | [b0, b1] => if b0 + 256 * b1 < 32768 then (b0 + 256 * b1 : ℤ)
      else (b0 + 256 * b1 : ℤ) - 65536
  | _ => 0

/-- Count `int(self.sample_rate_hz * self.frame_ms / 1000)` = 960. -/
def mockFrameCount : ℕ := 48000 * 20 / 1000

/-- One frame of `MockLyriaSession._render_pcm16_stereo`: for each index
the little-endian bytes of the left then the right sample. -/
def renderPcm16Stereo (sinA : ℚ → ℚ) (piA : ℚ) (cfg : MusicConfig)
    (weights : List ℚ) (phase : ℚ) (frameCount : ℕ) : List ℕ :=
  (List.range frameCount).flatMap
    (fun idx => int16le (leftI16 sinA piA cfg weights phase idx)
      ++ int16le (rightI16 sinA piA cfg weights phase idx))

theorem pyTruncQ_of_nonneg (q : ℚ) (h : 0 ≤ q) : pyTruncQ q = ⌊q⌋ := by
  rw [Rat.floor_def, pyTruncQ,
    Int.tdiv_eq_ediv (Rat.num_nonneg.mpr h) (Int.ofNat_nonneg _)]

theorem pyTruncQ_of_nonpos (q : ℚ) (h : q ≤ 0) : pyTruncQ q = ⌈q⌉ := by
  have h2 : 0 ≤ -q := by linarith
  have hswap : pyTruncQ q = - pyTruncQ (-q) := by
    unfold pyTruncQ
    rw [Rat.num_neg_eq_neg_num, Rat.den_neg_eq_den, Int.neg_tdiv, neg_neg]
  rw [hswap, pyTruncQ_of_nonneg (-q) h2, Int.floor_neg]
  simp

/-- Truncating the scaled clamp of any rational lands in `[-32767, 32767]`. -/
theorem clamped_trunc_bound (x : ℚ) :
    -32767 ≤ pyTruncQ (max (-1) (min 1 x) * 32767)
    ∧ pyTruncQ (max (-1) (min 1 x) * 32767) ≤ 32767 := by
  set y := max (-1) (min 1 x) with hy
  have hy1 : -1 ≤ y := le_max_left _ _
  have hy2 : y ≤ 1 := max_le (by norm_num) (min_le_left _ _)
  have hq1 : (-32767 : ℚ) ≤ y * 32767 := by nlinarith
  have hq2 : y * 32767 ≤ 32767 := by nlinarith
  rcases le_or_lt 0 (y * 32767) with h | h
  · rw [pyTruncQ_of_nonneg _ h]
    constructor
    · have hf := Int.floor_le_floor (α := ℚ) hq1
      rw [show ((-32767 : ℚ)) = (((-32767 : ℤ)) : ℚ) by norm_num,
        Int.floor_intCast] at hf
      exact hf
    · have hf := Int.floor_le_floor (α := ℚ) hq2
      rw [show ((32767 : ℚ)) = (((32767 : ℤ)) : ℚ) by norm_num,
        Int.floor_intCast] at hf
      exact hf
  · rw [pyTruncQ_of_nonpos _ (le_of_lt h)]
    constructor
    · have hf := Int.ceil_le_ceil hq1
      rw [show ((-32767 : ℚ)) = (((-32767 : ℤ)) : ℚ) by norm_num,
        Int.ceil_intCast] at hf
      exact hf
    · have hf := Int.ceil_le_ceil hq2
      rw [show ((32767 : ℚ)) = (((32767 : ℤ)) : ℚ) by norm_num,
        Int.ceil_intCast] at hf
      exact hf

/-- Lemma: `int16le` really is the twos-complement signed little-endian encoding:
decoding recovers any value in the int16 range. -/
theorem decode_int16le_roundtrip (v : ℤ) (h1 : -32768 ≤ v) (h2 : v ≤ 32767) :
    decodeInt16le (int16le v) = v := by
  have hm0 : 0 ≤ v % 65536 := Int.emod_nonneg v (by norm_num)
  have hm1 : v % 65536 < 65536 := Int.emod_lt_of_pos v (by norm_num)
  have ht : ((v % 65536).toNat : ℤ) = v % 65536 := Int.toNat_of_nonneg hm0
  have hv : v % 65536 = if 0 ≤ v then v else v + 65536 := by
    split
    · omega
    · omega
  simp only [int16le, decodeInt16le]
  split
  · push_cast
    omega
  · push_cast
    omega

/-- C6: a frame render is exactly 3840 bytes: 960 interleaved (L, R) pairs
of 16-bit signed little-endian samples, each decoded value in
`[-32768, 32767]` — for every sine/π model, config, prompt-weight list and
phase. -/
theorem mock_frame_format (sinA : ℚ → ℚ) (piA : ℚ) (cfg : MusicConfig)
    (weights : List ℚ) (phase : ℚ) :
    (renderPcm16Stereo sinA piA cfg weights phase mockFrameCount).length = 3840
    ∧ ∃ samples : List (ℤ × ℤ),
        samples.length = 960
        ∧ (∀ p ∈ samples, -32768 ≤ p.1 ∧ p.1 ≤ 32767
            ∧ -32768 ≤ p.2 ∧ p.2 ≤ 32767)
        ∧ (∀ p ∈ samples, decodeInt16le (int16le p.1) = p.1
            ∧ decodeInt16le (int16le p.2) = p.2)
        ∧ renderPcm16Stereo sinA piA cfg weights phase mockFrameCount
            = samples.flatMap (fun p => int16le p.1 ++ int16le p.2) := by
  have hbound : ∀ idx : ℕ,
      (-32768 ≤ leftI16 sinA piA cfg weights phase idx
        ∧ leftI16 sinA piA cfg weights phase idx ≤ 32767)
      ∧ (-32768 ≤ rightI16 sinA piA cfg weights phase idx
        ∧ rightI16 sinA piA cfg weights phase idx ≤ 32767) := by
    intro idx
    have hL := clamped_trunc_bound (rawSample sinA piA cfg weights phase idx)
    have hR := clamped_trunc_bound ((rawSample sinA piA cfg weights phase idx * (92/100))
      + ((8/100) * sinA (phase * (1/2))))
    exact ⟨⟨by rw [leftI16, leftVal]; omega, by rw [leftI16, leftVal]; omega⟩,
      ⟨by rw [rightI16, rightVal]; omega, by rw [rightI16, rightVal]; omega⟩⟩
  constructor
  · rw [renderPcm16Stereo, List.length_flatMap]
    have : List.map (List.length ∘ fun idx =>
        int16le (leftI16 sinA piA cfg weights phase idx)
          ++ int16le (rightI16 sinA piA cfg weights phase idx))
        (List.range mockFrameCount) = List.replicate mockFrameCount 4 := by
      rw [List.eq_replicate_iff]
      refine ⟨by simp, ?_⟩
      intro b hb
      simp only [List.mem_map] at hb
      obtain ⟨idx, -, hidx⟩ := hb
      simp [int16le, ← hidx]
    rw [this, List.sum_replicate]
    decide
  · refine ⟨(List.range mockFrameCount).map
      (fun idx => (leftI16 sinA piA cfg weights phase idx,
        rightI16 sinA piA cfg weights phase idx)), by simp [mockFrameCount], ?_, ?_, ?_⟩
    · intro p hp
      simp only [List.mem_map] at hp
      obtain ⟨idx, -, hidx⟩ := hp
      obtain ⟨⟨a1, a2⟩, b1, b2⟩ := hbound idx
      subst hidx
      exact ⟨a1, a2, b1, b2⟩
    · intro p hp
      simp only [List.mem_map] at hp
      obtain ⟨idx, -, hidx⟩ := hp
      obtain ⟨⟨a1, a2⟩, b1, b2⟩ := hbound idx
      subst hidx
      exact ⟨decode_int16le_roundtrip _ a1 a2, decode_int16le_roundtrip _ b1 b2⟩
    · rw [renderPcm16Stereo, List.flatMap_map]

theorem ratHalf_eq : ratHalf = 1/2 := by
  rw [ratHalf, Rat.mk'_eq_divInt, Rat.divInt_eq_div]; norm_num

/-- The first left sample of a default-config frame when the sine model is
the constant 1: the clamped sample value is `53/128`. -/
theorem leftVal_const_one :
    leftVal (fun _ => 1) 0 MusicConfig.default [] 0 0 = 53/128 := by
  have hg : guidanceMix MusicConfig.default = 2/3 := by
    rw [guidanceMix]
    show max (5/100) (min ((4 : ℚ) / 6) 1) = 2/3
    rw [min_eq_left (by norm_num), max_eq_right (by norm_num)]
    norm_num
  have ha : amplitudeOf MusicConfig.default = 1/4 := by
    rw [amplitudeOf]
    show (if MusicConfig.default.mute_bass then _ else _) = _
    norm_num [MusicConfig.default, ratHalf_eq]
  have hraw : rawSample (fun _ => 1) 0 MusicConfig.default [] 0 0 = 53/128 := by
    rw [rawSample, hg, ha]
    show (if MusicConfig.default.mute_drums then _ else _) = _
    norm_num [MusicConfig.default]
  rw [leftVal, hraw]
  rw [min_eq_right (by norm_num), max_eq_right (by norm_num)]

/-- C7 counterexample: with the sine model constantly 1 and the default
config, the first left wire value of the code is `int(53/128 · 32767) = 13567`,
while `round(53/128 · 32767) = 13568` — the conversion is not
round-to-nearest. -/
theorem pcm16_conversion_not_round :
    leftI16 (fun _ => 1) 0 MusicConfig.default [] 0 0 = 13567
    ∧ round (leftVal (fun _ => 1) 0 MusicConfig.default [] 0 0 * 32767) = 13568
    ∧ (13567 : ℤ) ≠ 13568 := by
  refine ⟨?_, ?_, by decide⟩
  · rw [leftI16, leftVal_const_one,
      pyTruncQ_of_nonneg _ (by norm_num),
      show ((53 : ℚ)/128) * 32767 = 1736651/128 by norm_num,
      Int.floor_eq_iff]
    norm_num
  · rw [leftVal_const_one, round_eq,
      show ((53 : ℚ)/128) * 32767 + 1/2 = 1736715/128 by norm_num,
      Int.floor_eq_iff]
    norm_num

/-- C7 amended: each clamped sample `x` is converted to its int16 wire
value by `int(x · 32767)`, which truncates toward zero — the floor for
nonnegative `x` and the ceiling for nonpositive `x` — for both channels. -/
theorem pcm16_conversion_truncates (sinA : ℚ → ℚ) (piA : ℚ)
    (cfg : MusicConfig) (weights : List ℚ) (phase : ℚ) (idx : ℕ) :
    (0 ≤ leftVal sinA piA cfg weights phase idx →
      leftI16 sinA piA cfg weights phase idx
        = ⌊leftVal sinA piA cfg weights phase idx * 32767⌋)
    ∧ (leftVal sinA piA cfg weights phase idx ≤ 0 →
      leftI16 sinA piA cfg weights phase idx
        = ⌈leftVal sinA piA cfg weights phase idx * 32767⌉)
    ∧ (0 ≤ rightVal sinA piA cfg weights phase idx →
      rightI16 sinA piA cfg weights phase idx
        = ⌊rightVal sinA piA cfg weights phase idx * 32767⌋)
    ∧ (rightVal sinA piA cfg weights phase idx ≤ 0 →
      rightI16 sinA piA cfg weights phase idx
        = ⌈rightVal sinA piA cfg weights phase idx * 32767⌉) := by
  refine ⟨fun h => ?_, fun h => ?_, fun h => ?_, fun h => ?_⟩
  · exact pyTruncQ_of_nonneg _ (by nlinarith)
  · exact pyTruncQ_of_nonpos _ (by nlinarith)
  · exact pyTruncQ_of_nonneg _ (by nlinarith)
  · exact pyTruncQ_of_nonpos _ (by nlinarith)

/-- Witness for the amended C7 at a concrete input: the first left sample
of the constant-1 sine render is nonnegative, and its wire value is the
floor of the scaled sample. -/
theorem pcm16_conversion_truncates_witness :
    leftI16 (fun _ => 1) 0 MusicConfig.default [] 0 0
      = ⌊leftVal (fun _ => 1) 0 MusicConfig.default [] 0 0 * 32767⌋ :=
  (pcm16_conversion_truncates (fun _ => 1) 0 MusicConfig.default [] 0 0).1
    (by rw [leftVal_const_one]; norm_num)

/-- Witness instance for C6 at a concrete input (constant-0 sine model,
default config): the rendered frame has exactly 3840 bytes. -/
theorem mock_frame_format_witness :
    (renderPcm16Stereo (fun _ => 0) 0 MusicConfig.default [] 0
      mockFrameCount).length = 3840 :=
  (mock_frame_format (fun _ => 0) 0 MusicConfig.default [] 0).1

/-! ## `token_utils.py`

Python strings are modelled as `List Char`, byte strings as `List ℕ`
(each entry < 256).  `hmac.new(secret, msg, sha256).digest()` is an
abstract parameter `mac : List Char → List Char → List ℕ` taking the
secret and the message.  JSON values in token payloads are modelled by
`JVal`: natural numbers, strings and booleans (the values this server puts
in tokens); `json.dumps(..., separators=(",", ":"))` and `json.loads` are
transcribed for this value domain, for strings that need no escaping
(no quote, no backslash, printable ASCII). -/

inductive JVal where
  | jnum (n : ℕ)
  | jstr (s : List Char)
  | jbool (b : Bool)
  deriving DecidableEq, Repr

def quoteChar : Char := Char.ofNat 34
def lbraceChar : Char := Char.ofNat 123
def rbraceChar : Char := Char.ofNat 125
def backslashChar : Char := Char.ofNat 92

/-- A string the compact JSON serializer emits verbatim (printable ASCII,
no quote, no backslash). -/
def validStr (s : List Char) : Prop :=
  ∀ c ∈ s, 32 ≤ c.toNat ∧ c.toNat < 127 ∧ c ≠ quoteChar ∧ c ≠ backslashChar

def validVal : JVal → Prop
  | .jstr s => validStr s
  | _ => True

def validPayload (ps : List (List Char × JVal)) : Prop :=
  ∀ e ∈ ps, validStr e.1 ∧ validVal e.2

instance (s : List Char) : Decidable (validStr s) := by
  unfold validStr; infer_instance

instance (v : JVal) : Decidable (validVal v) := by
  unfold validVal; rcases v <;> infer_instance

instance (ps : List (List Char × JVal)) : Decidable (validPayload ps) := by
  unfold validPayload; infer_instance

def digitChar (d : ℕ) : Char := Char.ofNat (48 + d)

/-- Base-10 digits, least significant first, with explicit fuel (kept
structurally recursive so concrete tokens evaluate inside the kernel). -/
def natDigitsAux : ℕ → ℕ → List ℕ
  | 0, _ => []
  | fuel + 1, n => if n = 0 then [] else n % 10 :: natDigitsAux fuel (n / 10)

/-- Decimal representation of a natural number (`repr` of a Python int). -/
def natToChars (n : ℕ) : List Char :=
  if n = 0 then [digitChar 0] else (natDigitsAux n n).reverse.map digitChar

theorem natDigitsAux_eq_digits :
    ∀ fuel n : ℕ, n ≤ fuel → natDigitsAux fuel n = Nat.digits 10 n := by
  intro fuel
  induction fuel with
  | zero => intro n h; interval_cases n; simp [natDigitsAux]
  | succ fuel ih =>
      intro n h
      rcases Nat.eq_zero_or_pos n with h0 | h0
      · subst h0; simp [natDigitsAux]
      · rw [natDigitsAux, if_neg (by omega),
          Nat.digits_def' (by norm_num : (1:ℕ) < 10) h0, ih]
        have := Nat.div_lt_self h0 (by norm_num : (1:ℕ) < 10)
        omega

def jstrDump (s : List Char) : List Char := quoteChar :: s ++ [quoteChar]

def jvalDump : JVal → List Char
  | .jnum n => natToChars n
  | .jstr s => jstrDump s
  | .jbool true => ['t', 'r', 'u', 'e']
  | .jbool false => ['f', 'a', 'l', 's', 'e']

def entryDump (e : List Char × JVal) : List Char :=
  jstrDump e.1 ++ ':' :: jvalDump e.2

/-- Serializer `json.dumps(obj, separators=(",", ":"))` on a (insertion-ordered) dict:
  `{` entry (`,` entry)* `}`. -/
def jsonDump (ps : List (List Char × JVal)) : List Char :=
  match ps with
  | [] => [lbraceChar, rbraceChar]
  | e :: rest =>
      lbraceChar :: (entryDump e
        ++ rest.flatMap (fun e2 => ',' :: entryDump e2)) ++ [rbraceChar]

/-! `json.loads` for the serialized fragment above (recursive descent). -/

def parseStr : List Char → Option (List Char × List Char)
  | [] => none
  | c :: rest =>
      if c = quoteChar then some ([], rest)
      else match parseStr rest with
        | some (s, r) => some (c :: s, r)
        | none => none

def isDigitCh (c : Char) : Bool := decide (48 ≤ c.toNat ∧ c.toNat ≤ 57)

def charToDigit (c : Char) : ℕ := c.toNat - 48

def parseDigits : List Char → List ℕ × List Char
  | [] => ([], [])
  | c :: rest =>
      if isDigitCh c then
        let p := parseDigits rest
        (charToDigit c :: p.1, p.2)
      else ([], c :: rest)

def digitsToNat (ds : List ℕ) : ℕ := ds.foldl (fun a d => 10 * a + d) 0

def parseVal : List Char → Option (JVal × List Char)
  | [] => none
  | c :: rest =>
      if c = quoteChar then
        match parseStr rest with
        | some (s, r) => some (.jstr s, r)
        | none => none
      else if isDigitCh c then
        let p := parseDigits (c :: rest)
        some (.jnum (digitsToNat p.1), p.2)
      else if c = 't' then
        match rest with
        | 'r' :: 'u' :: 'e' :: r => some (.jbool true, r)
        | _ => none
      else if c = 'f' then
        match rest with
        | 'a' :: 'l' :: 's' :: 'e' :: r => some (.jbool false, r)
        | _ => none
      else none

def parseEntry : List Char → Option ((List Char × JVal) × List Char)
  | [] => none
  | c :: rest =>
      if c = quoteChar then
        match parseStr rest with
        | some (k, r1) =>
            match r1 with
            | c2 :: r2 =>
                if c2 = ':' then
                  match parseVal r2 with
                  | some (v, r3) => some ((k, v), r3)
                  | none => none
                else none
            | [] => none
        | none => none
      else none

def parsePairsRest (fuel : ℕ) (cs : List Char) :
    Option (List (List Char × JVal) × List Char) :=
  match fuel with
  | 0 => none
  | fuel + 1 =>
      match cs with
      | [] => none
      | c :: rest =>
          if c = ',' then
            match parseEntry rest with
            | some (e, r) =>
                match parsePairsRest fuel r with
                | some (es, r2) => some (e :: es, r2)
                | none => none
            | none => none
          else if c = rbraceChar then some ([], rest)
          else none

def jsonParse (cs : List Char) : Option (List (List Char × JVal)) :=
  match cs with
  | [] => none
  | c :: rest =>
      if c = lbraceChar then
        match rest with
        | [] => none
        | c2 :: r2 =>
            if c2 = rbraceChar then (if r2 = [] then some [] else none)
            else
              match parseEntry rest with
              | some (e, r) =>
                  match parsePairsRest (r.length + 1) r with
                  | some (es, r3) => if r3 = [] then some (e :: es) else none
                  | none => none
              | none => none
      else none

/-! URL-safe base64 without padding (`_b64url_encode` / `_b64url_decode`:
the encoder strips `=`, the decoder re-adds it; modelled directly on the
unpadded form). -/

def b64Char (i : ℕ) : Char :=
  Char.ofNat (if i < 26 then 65 + i else if i < 52 then 97 + (i - 26)
    else if i < 62 then 48 + (i - 52) else if i = 62 then 45 else 95)

def b64Index (c : Char) : ℕ :=
  if 65 ≤ c.toNat ∧ c.toNat ≤ 90 then c.toNat - 65
  else if 97 ≤ c.toNat ∧ c.toNat ≤ 122 then 26 + (c.toNat - 97)
  else if 48 ≤ c.toNat ∧ c.toNat ≤ 57 then 52 + (c.toNat - 48)
  else if c.toNat = 45 then 62 else 63

def b64EncodeBytes : List ℕ → List Char
  | [] => []
  | [b1] => [b64Char (b1 / 4), b64Char (b1 % 4 * 16)]
  | [b1, b2] => [b64Char (b1 / 4), b64Char (b1 % 4 * 16 + b2 / 16),
      b64Char (b2 % 16 * 4)]
  | b1 :: b2 :: b3 :: rest =>
      b64Char (b1 / 4) :: b64Char (b1 % 4 * 16 + b2 / 16)
        :: b64Char (b2 % 16 * 4 + b3 / 64) :: b64Char (b3 % 64)
        :: b64EncodeBytes rest

def b64DecodeChars : List Char → List ℕ
  | [] => []
  | [_] => []
  | [c1, c2] => [b64Index c1 * 4 + b64Index c2 / 16]
  | [c1, c2, c3] => [b64Index c1 * 4 + b64Index c2 / 16,
      b64Index c2 % 16 * 16 + b64Index c3 / 4]
  | c1 :: c2 :: c3 :: c4 :: rest =>
      (b64Index c1 * 4 + b64Index c2 / 16)
        :: (b64Index c2 % 16 * 16 + b64Index c3 / 4)
        :: (b64Index c3 % 4 * 64 + b64Index c4)
        :: b64DecodeChars rest

/-- UTF-8 encoding restricted to the ASCII range the serializer emits. -/
def utf8Bytes (cs : List Char) : List ℕ := cs.map Char.toNat

def utf8Chars (bs : List ℕ) : List Char := bs.map Char.ofNat

/-- Split `token.split(".", 1)`: `none` when there is no dot (the two-element
unpacking then raises, reported as the invalid-format error). -/
def splitDot : List Char → Option (List Char × List Char)
  | [] => none
  | c :: rest =>
      if c = '.' then some ([], rest)
      else match splitDot rest with
        | some (a, b) => some (c :: a, b)
        | none => none

inductive TokenErr where
  | invalidFormat | invalidSignature | expired
  deriving DecidableEq, Repr

def expKey : List Char := ['e', 'x', 'p']
def iatKey : List Char := ['i', 'a', 't']

/-- Python dict insert: existing keys keep their position, new keys are
appended. -/
def jsonUpdate (d : List (List Char × JVal)) (k : List Char) (v : JVal) :
    List (List Char × JVal) :=
  if d.any (fun e => e.1 == k) then
    d.map (fun e => if e.1 == k then (k, v) else e)
  else
    d ++ [(k, v)]

/-- Augment `{**payload, "exp": int(time) + ttl, "iat": int(time)}` at integer
clock `now`. -/
def tokenPayloadPairs (p : List (List Char × JVal)) (now ttl : ℕ) :
    List (List Char × JVal) :=
  jsonUpdate (jsonUpdate p expKey (.jnum (now + ttl))) iatKey (.jnum now)

/-- The `payload_segment` produced by `create_token`. -/
def payloadSegment (p : List (List Char × JVal)) (now ttl : ℕ) : List Char :=
  b64EncodeBytes (utf8Bytes (jsonDump (tokenPayloadPairs p now ttl)))

/-- Sign an arbitrary (already augmented) payload dict the way
`create_token` does: `P ++ "." ++ b64url(mac(secret, P))`. -/
def signedTokenOf (mac : List Char → List Char → List ℕ)
    (secret : List Char) (pairs : List (List Char × JVal)) : List Char :=
  b64EncodeBytes (utf8Bytes (jsonDump pairs))
    ++ '.' :: b64EncodeBytes
      (mac secret (b64EncodeBytes (utf8Bytes (jsonDump pairs))))

/-- Function `create_token(payload, secret, ttl)` at integer clock `now`. -/
def createToken (mac : List Char → List Char → List ℕ)
    (p : List (List Char × JVal)) (secret : List Char) (ttl now : ℕ) :
    List Char :=
  signedTokenOf mac secret (tokenPayloadPairs p now ttl)

/-- Read `int(payload.get("exp", 0))` for the numeric/absent cases this module
produces. -/
def getExpire (pairs : List (List Char × JVal)) : ℕ :=
  match pairs.find? (fun e => e.1 == expKey) with
  | some (_, .jnum n) => n
  | some _ => 0
  | none => 0

/-- Function `verify_token(token, secret)` at integer clock `now`. -/
def verifyToken (mac : List Char → List Char → List ℕ) (token : List Char)
    (secret : List Char) (now : ℕ) :
    Except TokenErr (List (List Char × JVal)) :=
  match splitDot token with
  | none => .error .invalidFormat
  | some (ps, ss) =>
      if mac secret ps ≠ b64DecodeChars ss then .error .invalidSignature
      else
        match jsonParse (utf8Chars (b64DecodeChars ps)) with
        | none => .error .invalidFormat
        | some payload =>
            if getExpire payload < now then .error .expired
            else .ok payload

/-! Round-trip lemmas: the parser recovers exactly what the serializer
emitted, so `verify_token` undoes `create_token`. -/

/-- Either `none` or a non-digit first character (where a numeric literal ends). -/
def headNotDigit : List Char → Prop
  | [] => True
  | c :: _ => isDigitCh c = false

theorem parseStr_dump (s : List Char) (r : List Char) (h : quoteChar ∉ s) :
    parseStr (s ++ quoteChar :: r) = some (s, r) := by
  induction s with
  | nil => simp [parseStr]
  | cons c cs ih =>
      have hc : c ≠ quoteChar := fun hc => h (hc ▸ List.mem_cons_self c cs)
      have hcs : quoteChar ∉ cs := fun hm => h (List.mem_cons_of_mem c hm)
      simp [parseStr, hc, ih hcs]

theorem parseDigits_append (ds : List ℕ) (r : List Char)
    (hd : ∀ d ∈ ds, d < 10) (hr : headNotDigit r) :
    parseDigits (ds.map digitChar ++ r) = (ds, r) := by
  induction ds with
  | nil =>
      cases r with
      | nil => simp [parseDigits]
      | cons c cs =>
          have hc : isDigitCh c = false := hr
          simp [parseDigits, hc]
  | cons d ds ih =>
      have hd0 : d < 10 := hd d (List.mem_cons_self d ds)
      have hdig : isDigitCh (digitChar d) = true := by
        interval_cases d <;> decide
      have hcd : charToDigit (digitChar d) = d := by
        interval_cases d <;> decide
      simp [parseDigits, hdig, hcd, ih (fun x hx => hd x (List.mem_cons_of_mem d hx))]

theorem foldl_digits_reverse (ds : List ℕ) (acc : ℕ) :
    List.foldl (fun a d => 10 * a + d) acc ds.reverse
      = acc * 10 ^ ds.length + Nat.ofDigits 10 ds := by
  induction ds generalizing acc with
  | nil => simp
  | cons d ds ih =>
      rw [List.reverse_cons, List.foldl_append]
      simp only [List.foldl_cons, List.foldl_nil, ih, Nat.ofDigits_cons,
        List.length_cons]
      ring

theorem digitsToNat_digits (n : ℕ) :
    digitsToNat ((Nat.digits 10 n).reverse) = n := by
  rw [digitsToNat, foldl_digits_reverse, Nat.ofDigits_digits]
  simp

theorem parseVal_num (n : ℕ) (r : List Char) (hr : headNotDigit r) :
    parseVal (natToChars n ++ r) = some (.jnum n, r) := by
  rcases Nat.eq_zero_or_pos n with h0 | h0
  · subst h0
    have hn : natToChars 0 = [Char.ofNat 48] := by decide
    have h1 : parseDigits (Char.ofNat 48 :: r) = ([0], r) := by
      simpa [digitChar] using parseDigits_append [0] r (by simp) hr
    rw [hn]
    simp only [List.cons_append, List.nil_append, parseVal]
    rw [if_neg (by decide), if_pos (by decide)]
    simp [h1, digitsToNat]
  · rw [natToChars, if_neg (by omega), natDigitsAux_eq_digits n n le_rfl]
    have hne : Nat.digits 10 n ≠ [] := Nat.digits_ne_nil_iff_ne_zero.mpr (by omega)
    have hlt : ∀ d ∈ (Nat.digits 10 n).reverse, d < 10 := by
      intro d hd
      exact Nat.digits_lt_base (by norm_num) (List.mem_reverse.mp hd)
    rcases hrev : (Nat.digits 10 n).reverse with - | ⟨d, ds⟩
    · exact absurd (by simpa using congrArg List.reverse hrev) hne
    · have hd0 : d < 10 := hlt d (by rw [hrev]; exact List.mem_cons_self d ds)
      have hnq : digitChar d ≠ quoteChar := by interval_cases d <;> decide
      have hdig : isDigitCh (digitChar d) = true := by
        interval_cases d <;> decide
      have hparse : parseDigits (digitChar d :: (List.map digitChar ds ++ r))
          = (d :: ds, r) := by
        simpa using parseDigits_append (d :: ds) r
          (fun x hx => hlt x (by rw [hrev]; exact hx)) hr
      have hval : digitsToNat (d :: ds) = n := by
        have := digitsToNat_digits n
        rw [hrev] at this; exact this
      simp only [List.map_cons, List.cons_append, parseVal, if_neg hnq, hdig,
        if_pos rfl]
      simp only [hparse]
      simpa [digitsToNat] using hval

theorem parseVal_dump (v : JVal) (r : List Char) (hv : validVal v)
    (hr : headNotDigit r) : parseVal (jvalDump v ++ r) = some (v, r) := by
  rcases v with n | s | b
  · exact parseVal_num n r hr
  · have hvs : validStr s := hv
    have hq : quoteChar ∉ s := fun hm => ((hvs quoteChar hm).2.2.1 rfl).elim
    simp [jvalDump, jstrDump, parseVal, parseStr_dump s r hq]
  · rcases b with - | -
    · simp only [jvalDump, List.cons_append, List.nil_append, parseVal]
      rw [if_neg (by decide), if_neg (by decide)]
      rfl
    · simp only [jvalDump, List.cons_append, List.nil_append, parseVal]
      rw [if_neg (by decide), if_neg (by decide)]
      rfl

theorem parseEntry_dump (k : List Char) (v : JVal) (r : List Char)
    (hk : validStr k) (hv : validVal v) (hr : headNotDigit r) :
    parseEntry (entryDump (k, v) ++ r) = some ((k, v), r) := by
  have hq : quoteChar ∉ k := fun hm => ((hk quoteChar hm).2.2.1 rfl).elim
  have hps : parseStr (k ++ quoteChar :: (':' :: (jvalDump v ++ r)))
      = some (k, ':' :: (jvalDump v ++ r)) := parseStr_dump k _ hq
  have hpv := parseVal_dump v r hv hr
  simp only [entryDump, jstrDump]
  rw [show (quoteChar :: k ++ [quoteChar]) ++ ':' :: jvalDump v ++ r
      = quoteChar :: (k ++ quoteChar :: (':' :: (jvalDump v ++ r))) by simp]
  simp only [parseEntry, hps, hpv]
  simp

theorem length_le_flatMap_entry (es : List (List Char × JVal)) :
    es.length ≤ (es.flatMap (fun e => ',' :: entryDump e)).length := by
  induction es with
  | nil => simp
  | cons e es ih => simp only [List.flatMap_cons, List.length_append,
      List.length_cons]; omega

theorem parsePairsRest_dump (es : List (List Char × JVal)) (r : List Char)
    (fuel : ℕ) (hv : validPayload es) (hf : es.length < fuel) :
    parsePairsRest fuel
      ((es.flatMap (fun e => ',' :: entryDump e)) ++ rbraceChar :: r)
      = some (es, r) := by
  induction es generalizing fuel with
  | nil =>
      rcases fuel with - | fuel
      · omega
      · simp only [List.flatMap_nil, List.nil_append, parsePairsRest]
        rw [if_neg (by decide)]
        simp
  | cons e es ih =>
      rcases fuel with - | fuel
      · omega
      · have hke : validStr e.1 ∧ validVal e.2 := hv e (List.mem_cons_self e es)
        have hnd : headNotDigit
            ((es.flatMap (fun e2 => ',' :: entryDump e2)) ++ rbraceChar :: r) := by
          cases es with
          | nil => show isDigitCh rbraceChar = false; decide
          | cons e2 es2 => show isDigitCh ',' = false; decide
        have hpe := parseEntry_dump e.1 e.2
          ((es.flatMap (fun e2 => ',' :: entryDump e2)) ++ rbraceChar :: r)
          hke.1 hke.2 hnd
        have hrec := ih fuel (fun x hx => hv x (List.mem_cons_of_mem e hx))
          (by simpa using Nat.lt_of_succ_lt_succ hf)
        simp only [List.flatMap_cons, List.cons_append, List.append_assoc]
        simp only [parsePairsRest, if_pos rfl]
        rw [show entryDump e ++ ((es.flatMap (fun e2 => ',' :: entryDump e2))
            ++ rbraceChar :: r) = entryDump (e.1, e.2)
            ++ ((es.flatMap (fun e2 => ',' :: entryDump e2)) ++ rbraceChar :: r) by rfl]
        rw [hpe]
        simp [hrec]

theorem jsonParse_dump (ps : List (List Char × JVal)) (hv : validPayload ps) :
    jsonParse (jsonDump ps) = some ps := by
  cases ps with
  | nil => decide
  | cons e es =>
      have hke : validStr e.1 ∧ validVal e.2 := hv e (List.mem_cons_self e es)
      have hnd : headNotDigit
          ((es.flatMap (fun e2 => ',' :: entryDump e2)) ++ rbraceChar :: []) := by
        cases es with
        | nil => show isDigitCh rbraceChar = false; decide
        | cons e2 es2 => show isDigitCh ',' = false; decide
      have hpe := parseEntry_dump e.1 e.2
        ((es.flatMap (fun e2 => ',' :: entryDump e2)) ++ rbraceChar :: [])
        hke.1 hke.2 hnd
      have hrest := parsePairsRest_dump es []
        (((es.flatMap (fun e2 => ',' :: entryDump e2)) ++ rbraceChar :: []).length + 1)
        (fun x hx => hv x (List.mem_cons_of_mem e hx))
        (by
          have := length_le_flatMap_entry es
          simp only [List.length_append, List.length_cons, List.length_nil]
          omega)
      have hshape : jsonDump (e :: es) = lbraceChar :: (entryDump (e.1, e.2)
          ++ ((es.flatMap (fun e2 => ',' :: entryDump e2)) ++ rbraceChar :: [])) := by
        simp [jsonDump]
      have hqr : entryDump (e.1, e.2)
          ++ ((es.flatMap (fun e2 => ',' :: entryDump e2)) ++ rbraceChar :: [])
          = quoteChar :: (e.1 ++ [quoteChar] ++ (':' :: jvalDump e.2)
            ++ ((es.flatMap (fun e2 => ',' :: entryDump e2)) ++ rbraceChar :: [])) := by
        simp [entryDump, jstrDump]
      have hq2 : quoteChar ≠ rbraceChar := by decide
      rw [hshape, hqr]
      simp only [jsonParse, if_true]
      rw [if_neg hq2, ← hqr, hpe]
      simp only [hrest]
      simp

theorem b64Index_b64Char : ∀ i < 64, b64Index (b64Char i) = i := by decide

theorem b64Char_ne_dot : ∀ i < 64, b64Char i ≠ '.' := by decide

theorem b64_decode_encode (bs : List ℕ) (hb : ∀ b ∈ bs, b < 256) :
    b64DecodeChars (b64EncodeBytes bs) = bs := by
  induction bs using b64EncodeBytes.induct with
  | case1 => rfl
  | case2 b1 =>
      have h1 : b1 < 256 := hb b1 (by simp)
      rw [b64EncodeBytes, b64DecodeChars,
        b64Index_b64Char _ (by omega), b64Index_b64Char _ (by omega)]
      congr 1
      omega
  | case3 b1 b2 =>
      have h1 : b1 < 256 := hb b1 (by simp)
      have h2 : b2 < 256 := hb b2 (by simp)
      rw [b64EncodeBytes, b64DecodeChars,
        b64Index_b64Char _ (by omega), b64Index_b64Char _ (by omega),
        b64Index_b64Char _ (by omega)]
      congr 1
      · omega
      · congr 1
        omega
  | case4 b1 b2 b3 rest ih =>
      have h1 : b1 < 256 := hb b1 (by simp)
      have h2 : b2 < 256 := hb b2 (by simp)
      have h3 : b3 < 256 := hb b3 (by simp)
      have hrest : ∀ b ∈ rest, b < 256 := fun b hbm =>
        hb b (by simp [hbm])
      rw [b64EncodeBytes]
      rcases hrec : b64EncodeBytes rest with - | ⟨x, xs⟩
      · have : rest = [] := by
          cases rest with
          | nil => rfl
          | cons y ys =>
              exfalso
              cases ys with
              | nil => simp [b64EncodeBytes] at hrec
              | cons z zs =>
                  cases zs with
                  | nil => simp [b64EncodeBytes] at hrec
                  | cons w ws => simp [b64EncodeBytes] at hrec
        subst this
        rw [show b64DecodeChars [b64Char (b1 / 4), b64Char (b1 % 4 * 16 + b2 / 16),
            b64Char (b2 % 16 * 4 + b3 / 64), b64Char (b3 % 64)]
            = [b64Index (b64Char (b1 / 4)) * 4
                + b64Index (b64Char (b1 % 4 * 16 + b2 / 16)) / 16,
              b64Index (b64Char (b1 % 4 * 16 + b2 / 16)) % 16 * 16
                + b64Index (b64Char (b2 % 16 * 4 + b3 / 64)) / 4,
              b64Index (b64Char (b2 % 16 * 4 + b3 / 64)) % 4 * 64
                + b64Index (b64Char (b3 % 64))] from rfl,
          b64Index_b64Char _ (by omega), b64Index_b64Char _ (by omega),
          b64Index_b64Char _ (by omega), b64Index_b64Char _ (by omega)]
        simp [b64EncodeBytes]
        refine ⟨by omega, by omega, by omega⟩
      · rw [show b64DecodeChars (b64Char (b1 / 4)
              :: b64Char (b1 % 4 * 16 + b2 / 16)
              :: b64Char (b2 % 16 * 4 + b3 / 64) :: b64Char (b3 % 64) :: x :: xs)
            = (b64Index (b64Char (b1 / 4)) * 4
                + b64Index (b64Char (b1 % 4 * 16 + b2 / 16)) / 16)
              :: (b64Index (b64Char (b1 % 4 * 16 + b2 / 16)) % 16 * 16
                + b64Index (b64Char (b2 % 16 * 4 + b3 / 64)) / 4)
              :: (b64Index (b64Char (b2 % 16 * 4 + b3 / 64)) % 4 * 64
                + b64Index (b64Char (b3 % 64)))
              :: b64DecodeChars (x :: xs) from rfl,
          b64Index_b64Char _ (by omega), b64Index_b64Char _ (by omega),
          b64Index_b64Char _ (by omega), b64Index_b64Char _ (by omega),
          ← hrec, ih hrest]
        congr 1
        · omega
        · congr 1
          · omega
          · congr 1
            omega

theorem b64_encode_ne_dot (bs : List ℕ) (hb : ∀ b ∈ bs, b < 256) :
    ∀ c ∈ b64EncodeBytes bs, c ≠ '.' := by
  induction bs using b64EncodeBytes.induct with
  | case1 => intro c hc; simp [b64EncodeBytes] at hc
  | case2 b1 =>
      have h1 : b1 < 256 := hb b1 (by simp)
      intro c hc
      simp only [b64EncodeBytes, List.mem_cons, List.not_mem_nil, or_false] at hc
      rcases hc with h | h <;>
        exact h ▸ b64Char_ne_dot _ (by omega)
  | case3 b1 b2 =>
      have h1 : b1 < 256 := hb b1 (by simp)
      have h2 : b2 < 256 := hb b2 (by simp)
      intro c hc
      simp only [b64EncodeBytes, List.mem_cons, List.not_mem_nil, or_false] at hc
      rcases hc with h | h | h <;>
        exact h ▸ b64Char_ne_dot _ (by omega)
  | case4 b1 b2 b3 rest ih =>
      have h1 : b1 < 256 := hb b1 (by simp)
      have h2 : b2 < 256 := hb b2 (by simp)
      have h3 : b3 < 256 := hb b3 (by simp)
      intro c hc
      simp only [b64EncodeBytes, List.mem_cons] at hc
      rcases hc with h | h | h | h | h
      · exact h ▸ b64Char_ne_dot _ (by omega)
      · exact h ▸ b64Char_ne_dot _ (by omega)
      · exact h ▸ b64Char_ne_dot _ (by omega)
      · exact h ▸ b64Char_ne_dot _ (by omega)
      · exact ih (fun b hbm => hb b (by simp [hbm])) c h

theorem splitDot_append (a b : List Char) (ha : '.' ∉ a) :
    splitDot (a ++ '.' :: b) = some (a, b) := by
  induction a with
  | nil => simp [splitDot]
  | cons c cs ih =>
      have hc : c ≠ '.' := fun hc => ha (hc ▸ List.mem_cons_self c cs)
      have hcs : '.' ∉ cs := fun hm => ha (List.mem_cons_of_mem c hm)
      simp [splitDot, hc, ih hcs]

theorem utf8_roundtrip (cs : List Char) : utf8Chars (utf8Bytes cs) = cs := by
  simp [utf8Chars, utf8Bytes, List.map_map, Function.comp_def, Char.ofNat_toNat]

/-- Every byte the serializer emits is ASCII (< 128): braces, quotes,
colons, commas, decimal digits, the `true`/`false` letters, and characters
of valid strings. -/
theorem jsonDump_ascii (ps : List (List Char × JVal)) (hv : validPayload ps) :
    ∀ c ∈ jsonDump ps, c.toNat < 128 := by
  have hdigit : ∀ n : ℕ, ∀ c ∈ natToChars n, c.toNat < 128 := by
    intro n c hc
    rcases Nat.eq_zero_or_pos n with h0 | h0
    · subst h0
      simp [natToChars, digitChar] at hc
      subst hc; decide
    · rw [natToChars, if_neg (by omega), natDigitsAux_eq_digits n n le_rfl] at hc
      simp only [List.mem_map, List.mem_reverse] at hc
      obtain ⟨d, hd, hdc⟩ := hc
      have : d < 10 := Nat.digits_lt_base (by norm_num) hd
      subst hdc
      interval_cases d <;> decide
  have hval : ∀ v : JVal, validVal v → ∀ c ∈ jvalDump v, c.toNat < 128 := by
    intro v hvv c hc
    rcases v with n | s | b
    · exact hdigit n c hc
    · have h2 : c = quoteChar ∨ c ∈ s := by
        simp only [jvalDump, jstrDump, List.mem_cons, List.mem_append,
          List.mem_singleton] at hc
        tauto
      rcases h2 with h | h
      · subst h; decide
      · exact lt_of_lt_of_le (hvv c h).2.1 (by norm_num)
    · rcases b with - | - <;> simp only [jvalDump] at hc <;> fin_cases hc <;> decide
  have hentry : ∀ e : List Char × JVal, validStr e.1 → validVal e.2 →
      ∀ c ∈ entryDump e, c.toNat < 128 := by
    intro e h1 h2 c hc
    have h3 : c = quoteChar ∨ c ∈ e.1 ∨ c = ':' ∨ c ∈ jvalDump e.2 := by
      simp only [entryDump, jstrDump, List.mem_append, List.mem_cons,
        List.mem_singleton] at hc
      tauto
    rcases h3 with h | h | h | h
    · subst h; decide
    · exact lt_of_lt_of_le (h1 c h).2.1 (by norm_num)
    · subst h; decide
    · exact hval e.2 h2 c h
  intro c hc
  cases ps with
  | nil =>
      simp only [jsonDump, List.mem_cons, List.not_mem_nil, or_false] at hc
      rcases hc with h | h <;> (subst h; decide)
  | cons e es =>
      rw [jsonDump] at hc
      rcases List.mem_append.mp hc with h | h
      · rcases List.mem_cons.mp h with h | h
        · subst h; decide
        · rcases List.mem_append.mp h with h | h
          · exact hentry e (hv e (List.mem_cons_self e es)).1
              (hv e (List.mem_cons_self e es)).2 c h
          · rcases List.mem_flatMap.mp h with ⟨e2, he2, h⟩
            rcases List.mem_cons.mp h with h | h
            · subst h; decide
            · have he2v := hv e2 (List.mem_cons_of_mem e he2)
              exact hentry e2 he2v.1 he2v.2 c h
      · rw [List.mem_singleton] at h
        subst h; decide

/-- Central lemma: verifying a token this module signed (with the same
secret) passes the format and signature checks and reduces to the expiry
test on the embedded payload. -/
theorem verify_signedTokenOf (mac : List Char → List Char → List ℕ)
    (secret : List Char) (pairs : List (List Char × JVal)) (now : ℕ)
    (hv : validPayload pairs)
    (hm : ∀ b ∈ mac secret (b64EncodeBytes (utf8Bytes (jsonDump pairs))), b < 256) :
    verifyToken mac (signedTokenOf mac secret pairs) secret now
      = if getExpire pairs < now then .error .expired else .ok pairs := by
  have hascii := jsonDump_ascii pairs hv
  have hbytes : ∀ b ∈ utf8Bytes (jsonDump pairs), b < 256 := by
    intro b hb
    simp only [utf8Bytes, List.mem_map] at hb
    obtain ⟨c, hc, hbc⟩ := hb
    exact hbc ▸ lt_of_lt_of_le (hascii c hc) (by norm_num)
  have hnodot : '.' ∉ b64EncodeBytes (utf8Bytes (jsonDump pairs)) := by
    intro hmem
    exact (b64_encode_ne_dot _ hbytes '.' hmem) rfl
  have hsplit : splitDot (signedTokenOf mac secret pairs)
      = some (b64EncodeBytes (utf8Bytes (jsonDump pairs)),
        b64EncodeBytes (mac secret (b64EncodeBytes (utf8Bytes (jsonDump pairs))))) := by
    rw [signedTokenOf]
    exact splitDot_append _ _ hnodot
  simp only [verifyToken, hsplit]
  rw [b64_decode_encode _ hm, if_neg (by simp),
    b64_decode_encode _ hbytes, utf8_roundtrip, jsonParse_dump pairs hv]

/-- Central lemma, wrong-secret side: when the recomputed digest differs
from the embedded one, verification stops with the invalid-signature
error. -/
theorem verify_signedTokenOf_wrong (mac : List Char → List Char → List ℕ)
    (secret secret2 : List Char) (pairs : List (List Char × JVal)) (now : ℕ)
    (hv : validPayload pairs)
    (hm : ∀ b ∈ mac secret (b64EncodeBytes (utf8Bytes (jsonDump pairs))), b < 256)
    (hdiff : mac secret2 (b64EncodeBytes (utf8Bytes (jsonDump pairs)))
      ≠ mac secret (b64EncodeBytes (utf8Bytes (jsonDump pairs)))) :
    verifyToken mac (signedTokenOf mac secret pairs) secret2 now
      = .error .invalidSignature := by
  have hascii := jsonDump_ascii pairs hv
  have hbytes : ∀ b ∈ utf8Bytes (jsonDump pairs), b < 256 := by
    intro b hb
    simp only [utf8Bytes, List.mem_map] at hb
    obtain ⟨c, hc, hbc⟩ := hb
    exact hbc ▸ lt_of_lt_of_le (hascii c hc) (by norm_num)
  have hnodot : '.' ∉ b64EncodeBytes (utf8Bytes (jsonDump pairs)) := by
    intro hmem
    exact (b64_encode_ne_dot _ hbytes '.' hmem) rfl
  have hsplit : splitDot (signedTokenOf mac secret pairs)
      = some (b64EncodeBytes (utf8Bytes (jsonDump pairs)),
        b64EncodeBytes (mac secret (b64EncodeBytes (utf8Bytes (jsonDump pairs))))) := by
    rw [signedTokenOf]
    exact splitDot_append _ _ hnodot
  simp only [verifyToken, hsplit]
  rw [b64_decode_encode _ hm, if_pos hdiff]

/-- When the payload mentions neither `exp` nor `iat`, augmenting appends
them (in that order) after the pairs of the payload. -/
theorem tokenPayloadPairs_append (p : List (List Char × JVal)) (now ttl : ℕ)
    (hkeys : ∀ e ∈ p, e.1 ≠ expKey ∧ e.1 ≠ iatKey) :
    tokenPayloadPairs p now ttl
      = p ++ [(expKey, .jnum (now + ttl)), (iatKey, .jnum now)] := by
  have h1 : p.any (fun e => e.1 == expKey) = false := by
    simp only [List.any_eq_false, beq_iff_eq]
    exact fun e he => (hkeys e he).1
  have h2 : (p ++ [(expKey, JVal.jnum (now + ttl))]).any
      (fun e => e.1 == iatKey) = false := by
    simp only [List.any_eq_false, beq_iff_eq, List.mem_append,
      List.mem_singleton]
    rintro e (he | he)
    · exact (hkeys e he).2
    · subst he; exact (by decide : expKey ≠ iatKey)
  rw [tokenPayloadPairs,
    show jsonUpdate p expKey (JVal.jnum (now + ttl))
      = p ++ [(expKey, JVal.jnum (now + ttl))] from by
        rw [jsonUpdate, if_neg (by rw [h1]; simp)],
    jsonUpdate, if_neg (by rw [h2]; simp), List.append_assoc]
  rfl

theorem validPayload_append_expiat (p : List (List Char × JVal)) (now ttl : ℕ)
    (hv : validPayload p) :
    validPayload (p ++ [(expKey, .jnum (now + ttl)), (iatKey, .jnum now)]) := by
  intro e he
  rcases List.mem_append.mp he with h | h
  · exact hv e h
  · rcases List.mem_cons.mp h with h | h
    · subst h; exact ⟨(by decide : validStr expKey), trivial⟩
    · rw [List.mem_singleton] at h
      subst h; exact ⟨(by decide : validStr iatKey), trivial⟩

theorem getExpire_append (p : List (List Char × JVal)) (now ttl : ℕ)
    (hkeys : ∀ e ∈ p, e.1 ≠ expKey ∧ e.1 ≠ iatKey) :
    getExpire (p ++ [(expKey, .jnum (now + ttl)), (iatKey, .jnum now)])
      = now + ttl := by
  rw [getExpire, List.find?_append]
  have h1 : p.find? (fun e => e.1 == expKey) = none := by
    rw [List.find?_eq_none]
    intro e he
    simp only [beq_iff_eq]
    exact (hkeys e he).1
  rw [h1]
  simp

/-- C2 counterexample: for the payload `{"exp": 0}` (any payload already
carrying an `exp` key), `verify(create(payload, s, ttl), s)` succeeds but
the result does not contain the original `("exp", 0)` pair — `create`
overwrites it — so the result does not ⊇ the payload. -/
theorem token_round_trip_cex :
    verifyToken (fun _ _ => [0])
        (createToken (fun _ _ => [0]) [(expKey, JVal.jnum 0)] ['a'] 50 100)
        ['a'] 100
      = .ok [(expKey, JVal.jnum 150), (iatKey, JVal.jnum 100)]
    ∧ (expKey, JVal.jnum 0)
        ∉ [(expKey, JVal.jnum 150), (iatKey, JVal.jnum 100)] := by
  constructor
  · decide
  · decide

/-- C2 amended: for payloads (in the modelled JSON domain) whose keys
avoid `exp` and `iat`, verifying a fresh token with the same secret
succeeds and returns the payload pairs plus `exp = now + ttl` and
`iat = now`; with a different secret whose HMAC digest differs (HMAC is
modelled as an abstract keyed digest; collision-freedom between the two
keys is the stated hypothesis), verification fails with the
invalid-signature error. -/
theorem token_round_trip (mac : List Char → List Char → List ℕ)
    (payload : List (List Char × JVal)) (secret secret2 : List Char)
    (ttl now : ℕ) (httl : 0 < ttl)
    (hkeys : ∀ e ∈ payload, e.1 ≠ expKey ∧ e.1 ≠ iatKey)
    (hv : validPayload payload)
    (hm : ∀ b ∈ mac secret (payloadSegment payload now ttl), b < 256)
    (hdiff : mac secret2 (payloadSegment payload now ttl)
      ≠ mac secret (payloadSegment payload now ttl)) :
    verifyToken mac (createToken mac payload secret ttl now) secret now
      = .ok (payload ++ [(expKey, .jnum (now + ttl)), (iatKey, .jnum now)])
    ∧ (∀ e ∈ payload,
        e ∈ payload ++ [(expKey, .jnum (now + ttl)), (iatKey, .jnum now)])
    ∧ (expKey, JVal.jnum (now + ttl))
        ∈ payload ++ [(expKey, .jnum (now + ttl)), (iatKey, .jnum now)]
    ∧ (iatKey, JVal.jnum now)
        ∈ payload ++ [(expKey, .jnum (now + ttl)), (iatKey, .jnum now)]
    ∧ verifyToken mac (createToken mac payload secret ttl now) secret2 now
      = .error .invalidSignature := by
  have haug := tokenPayloadPairs_append payload now ttl hkeys
  have hvaug := validPayload_append_expiat payload now ttl hv
  have hseg : payloadSegment payload now ttl
      = b64EncodeBytes (utf8Bytes (jsonDump (tokenPayloadPairs payload now ttl))) := rfl
  refine ⟨?_, ?_, ?_, ?_, ?_⟩
  · rw [createToken, haug,
      verify_signedTokenOf mac secret _ now hvaug (by rw [hseg, haug] at hm; exact hm),
      getExpire_append payload now ttl hkeys, if_neg (by omega)]
  · intro e he
    exact List.mem_append.mpr (Or.inl he)
  · exact List.mem_append.mpr (Or.inr (List.mem_cons_self _ _))
  · exact List.mem_append.mpr (Or.inr (List.mem_cons_of_mem _ (List.mem_singleton.mpr rfl)))
  · rw [createToken, haug,
      verify_signedTokenOf_wrong mac secret secret2 _ now hvaug
        (by rw [hseg, haug] at hm; exact hm)
        (by rw [hseg, haug] at hdiff; exact hdiff)]

/-- Witness for the amended C2 at a concrete input: payload
`{"room_id": "r", "role": "A"}`, secrets `"a"` and `"ab"`, and a digest
that depends on the length of the secret. -/
theorem token_round_trip_witness :
    verifyToken (fun k _ => [k.length % 256])
        (createToken (fun k _ => [k.length % 256])
          [(['r', 'o', 'o', 'm'], JVal.jstr ['r']), (['r', 'o', 'l', 'e'], JVal.jstr ['A'])]
          ['a'] 60 7)
        ['a'] 7
      = .ok [(['r', 'o', 'o', 'm'], JVal.jstr ['r']),
          (['r', 'o', 'l', 'e'], JVal.jstr ['A']),
          (expKey, JVal.jnum 67), (iatKey, JVal.jnum 7)]
    ∧ verifyToken (fun k _ => [k.length % 256])
        (createToken (fun k _ => [k.length % 256])
          [(['r', 'o', 'o', 'm'], JVal.jstr ['r']), (['r', 'o', 'l', 'e'], JVal.jstr ['A'])]
          ['a'] 60 7)
        ['a', 'b'] 7
      = .error .invalidSignature := by
  have h := token_round_trip (fun k _ => [k.length % 256])
    [(['r', 'o', 'o', 'm'], JVal.jstr ['r']), (['r', 'o', 'l', 'e'], JVal.jstr ['A'])]
    ['a'] ['a', 'b'] 60 7 (by decide) (by decide) (by decide) (by decide) (by decide)
  exact ⟨h.1, h.2.2.2.2⟩

/-- C5 counterexample: two payload dictionaries with the same key/value
pairs in different insertion order — `{"a": 0, "b": 1}` versus
`{"b": 1, "a": 0}` — yield different payload segments at the same clock:
the serialization is insertion-ordered, not key-sorted. -/
theorem payload_segment_not_sorted_cex :
    ([(['a'], JVal.jnum 0), (['b'], JVal.jnum 1)]).Perm
        [(['b'], JVal.jnum 1), (['a'], JVal.jnum 0)]
    ∧ payloadSegment [(['a'], JVal.jnum 0), (['b'], JVal.jnum 1)] 0 1
      ≠ payloadSegment [(['b'], JVal.jnum 1), (['a'], JVal.jnum 0)] 0 1 := by
  constructor
  · decide
  · decide

/-- C5 amended: `create_token` serializes the `iat`/`exp`-augmented
payload compactly in insertion order (payload pairs in order, then `exp`,
then `iat`, overriding in place when already present); the payload segment
is a canonical function of that ordered augmented dict: two payloads give
the same segment iff their ordered augmented dicts are equal. -/
theorem payload_segment_canonical (p1 p2 : List (List Char × JVal))
    (now ttl : ℕ)
    (h1 : validPayload (tokenPayloadPairs p1 now ttl))
    (h2 : validPayload (tokenPayloadPairs p2 now ttl)) :
    payloadSegment p1 now ttl = payloadSegment p2 now ttl
      ↔ tokenPayloadPairs p1 now ttl = tokenPayloadPairs p2 now ttl := by
  constructor
  · intro h
    have hb1 : ∀ b ∈ utf8Bytes (jsonDump (tokenPayloadPairs p1 now ttl)), b < 256 := by
      intro b hb
      simp only [utf8Bytes, List.mem_map] at hb
      obtain ⟨c, hc, hbc⟩ := hb
      exact hbc ▸ lt_of_lt_of_le (jsonDump_ascii _ h1 c hc) (by norm_num)
    have hb2 : ∀ b ∈ utf8Bytes (jsonDump (tokenPayloadPairs p2 now ttl)), b < 256 := by
      intro b hb
      simp only [utf8Bytes, List.mem_map] at hb
      obtain ⟨c, hc, hbc⟩ := hb
      exact hbc ▸ lt_of_lt_of_le (jsonDump_ascii _ h2 c hc) (by norm_num)
    have hd := congrArg b64DecodeChars h
    rw [payloadSegment, payloadSegment, b64_decode_encode _ hb1,
      b64_decode_encode _ hb2] at hd
    have hc := congrArg utf8Chars hd
    rw [utf8_roundtrip, utf8_roundtrip] at hc
    have hp := congrArg jsonParse hc
    rw [jsonParse_dump _ h1, jsonParse_dump _ h2] at hp
    exact Option.some.inj hp
  · intro h
    rw [payloadSegment, payloadSegment, h]

/-- Witness for the amended C5 at a concrete input. -/
theorem payload_segment_canonical_witness :
    payloadSegment [(['a'], JVal.jnum 0)] 3 5
        = payloadSegment [(['a'], JVal.jnum 0)] 3 5
      ↔ tokenPayloadPairs [(['a'], JVal.jnum 0)] 3 5
        = tokenPayloadPairs [(['a'], JVal.jnum 0)] 3 5 :=
  payload_segment_canonical [(['a'], JVal.jnum 0)] [(['a'], JVal.jnum 0)] 3 5
    (by decide) (by decide)

/-- C10: the expiry check of `verify_token` is strict at integer-second
granularity: a correctly signed token is rejected as expired iff its `exp`
is strictly below the clock — `exp = now` verifies — and a signed token
with no `exp` key at all is rejected as expired (the missing value reads
as 0), not as malformed. -/
theorem verify_token_expiry_strict (mac : List Char → List Char → List ℕ)
    (secret : List Char) (extra : List (List Char × JVal)) (e now : ℕ)
    (hv : validPayload extra)
    (hne : ∀ kv ∈ extra, kv.1 ≠ expKey)
    (hm1 : ∀ b ∈ mac secret (b64EncodeBytes (utf8Bytes
      (jsonDump ((expKey, JVal.jnum e) :: extra)))), b < 256)
    (hm2 : ∀ b ∈ mac secret (b64EncodeBytes (utf8Bytes (jsonDump extra))),
      b < 256) :
    (verifyToken mac (signedTokenOf mac secret ((expKey, JVal.jnum e) :: extra))
        secret now = .error .expired ↔ e < now)
    ∧ (now ≤ e →
        verifyToken mac (signedTokenOf mac secret ((expKey, JVal.jnum e) :: extra))
          secret now = .ok ((expKey, JVal.jnum e) :: extra))
    ∧ (0 < now →
        verifyToken mac (signedTokenOf mac secret extra) secret now
          = .error .expired) := by
  have hvcons : validPayload ((expKey, JVal.jnum e) :: extra) := by
    intro kv hkv
    rcases List.mem_cons.mp hkv with h | h
    · subst h; exact ⟨(by decide : validStr expKey), trivial⟩
    · exact hv kv h
  have hexp : getExpire ((expKey, JVal.jnum e) :: extra) = e := by
    simp [getExpire]
  have hnone : getExpire extra = 0 := by
    rw [getExpire, List.find?_eq_none.mpr]
    intro kv hkv
    simp only [beq_iff_eq]
    exact hne kv hkv
  have hmain := verify_signedTokenOf mac secret ((expKey, JVal.jnum e) :: extra)
    now hvcons hm1
  rw [hexp] at hmain
  refine ⟨?_, ?_, ?_⟩
  · constructor
    · intro h
      by_contra hlt
      rw [if_neg hlt] at hmain
      rw [hmain] at h
      cases h
    · intro h
      rw [if_pos h] at hmain
      exact hmain
  · intro h
    rw [if_neg (by omega)] at hmain
    exact hmain
  · intro h
    rw [verify_signedTokenOf mac secret extra now hv hm2, hnone, if_pos h]

/-- Witness for C10 at a concrete input: with `exp = 5` the token verifies
at clock 5 and is expired at clock 6; with no `exp` key it is expired at
clock 1. -/
theorem verify_token_expiry_strict_witness :
    verifyToken (fun _ _ => [7])
        (signedTokenOf (fun _ _ => [7]) ['s'] [(expKey, JVal.jnum 5)]) ['s'] 5
      = .ok [(expKey, JVal.jnum 5)]
    ∧ verifyToken (fun _ _ => [7])
        (signedTokenOf (fun _ _ => [7]) ['s'] []) ['s'] 1
      = .error .expired :=
  ⟨(verify_token_expiry_strict (fun _ _ => [7]) ['s'] [] 5 5 (by decide)
      (by decide) (by decide) (by decide)).2.1 (le_refl 5),
   (verify_token_expiry_strict (fun _ _ => [7]) ['s'] [] 5 1 (by decide)
      (by decide) (by decide) (by decide)).2.2 (by decide)⟩

end Leeriya
